import Mathlib

/-!
Verification development for the COLMAP SIFT feature module
(`src/feature/sift.h`): option records with their documented defaults, the
descriptor matcher (ratio test, distance test, cross check, match cap), the
adaptive-RANSAC two-view estimator, guided matching, feature extraction
output coupling, and the keypoint/descriptor text format.

The header declares the interface and the option defaults; the function
bodies are not part of the available sources, so every operation below is
modelled from the specification's description of its behaviour (each such
definition says so in its doc comment).  C++ `double` fields are modelled
as `ℚ`, `int` fields as `ℤ`, and descriptor distances are kept as squared
Euclidean distances over `ℤ`: the thresholds `max_distance` and `max_ratio`
are therefore compared squared, which is order-equivalent to comparing the
unsquared Euclidean distances against the raw thresholds.
-/

namespace Colmap

/-- Normalization variants for SIFT descriptors, from `sift.h`. -/
inductive Normalization where
  | L1_ROOT : Normalization
  | L2 : Normalization

/-- Extraction options, fields and defaults from `sift.h` lines 29-99.
The default `peak_threshold` is `0.02 / octave_resolution` as in the header. -/
structure SiftExtractionOptions where
  num_threads : ℤ := -1
  use_gpu : Bool := true
  gpu_index : String := "-1"
  max_image_size : ℤ := 3200
  max_num_features : ℤ := 8192
  first_octave : ℤ := -1
  num_octaves : ℤ := 4
  octave_resolution : ℤ := 3
  peak_threshold : ℚ := 2 / 100 / (octave_resolution : ℚ)
  edge_threshold : ℚ := 10
  estimate_affine_shape : Bool := false
  max_num_orientations : ℤ := 2
  upright : Bool := false
  darkness_adaptivity : Bool := false
  domain_size_pooling : Bool := false
  dsp_min_scale : ℚ := 1 / 6
  dsp_max_scale : ℚ := 3
  dsp_num_scales : ℤ := 10
  normalization : Normalization := Normalization.L1_ROOT

/-- Matching options, fields and defaults from `sift.h` lines 101-153. -/
structure SiftMatchingOptions where
  num_threads : ℤ := -1
  use_gpu : Bool := true
  gpu_index : String := "-1"
  max_ratio : ℚ := 8 / 10
  max_distance : ℚ := 7 / 10
  cross_check : Bool := true
  max_num_matches : ℤ := 32768
  max_error : ℚ := 4
  confidence : ℚ := 999 / 1000
  min_num_trials : ℤ := 30
  max_num_trials : ℤ := 10000
  min_inlier_ratio : ℚ := 1 / 4
  min_num_inliers : ℤ := 15
  multiple_models : Bool := false
  guided_matching : Bool := false
  border : ℤ := 0

/-- Modelled from the spec: the body of `SiftExtractionOptions::Check` is not
among the sources (the header only declares it).  Per the spec, `Check()`
validates range invariants: thresholds non-negative, octave and resolution
counts positive, and `dsp_num_scales ≥ 1` (with the domain-size-pooling scale
range consistent). -/
def SiftExtractionOptions.Check (o : SiftExtractionOptions) : Bool :=
  decide (0 ≤ o.peak_threshold) && decide (0 ≤ o.edge_threshold) &&
  decide (0 < o.num_octaves) && decide (0 < o.octave_resolution) &&
  decide (1 ≤ o.dsp_num_scales) && decide (o.dsp_min_scale ≤ o.dsp_max_scale)

/-- Modelled from the spec: the body of `SiftMatchingOptions::Check` is not
among the sources (the header only declares it).  Per the spec, `Check()`
validates range/consistency invariants: thresholds non-negative, the RANSAC
trial bounds positive and consistent (`min_num_trials ≤ max_num_trials`), the
a-priori inlier ratio and confidence inside `[0, 1]`, and `min_num_inliers`
non-negative. -/
def SiftMatchingOptions.Check (o : SiftMatchingOptions) : Bool :=
  decide (0 ≤ o.max_ratio) && decide (0 ≤ o.max_distance) &&
  decide (0 ≤ o.max_error) && decide (0 < o.min_num_trials) &&
  decide (o.min_num_trials ≤ o.max_num_trials) &&
  decide (0 ≤ o.min_inlier_ratio) && decide (o.min_inlier_ratio ≤ 1) &&
  decide (0 ≤ o.confidence) && decide (o.confidence ≤ 1) &&
  decide (0 ≤ o.min_num_inliers)

/-! ## Descriptor matcher (`MatchSiftFeaturesCPU`) -/

/-- Squared Euclidean distance between two descriptor vectors (byte values,
compared over `ℤ`). -/
def sqDist (a b : List ℕ) : ℤ :=
  (List.zipWith (fun x y => ((x : ℤ) - (y : ℤ)) ^ 2) a b).sum

/-- One step of the nearest/second-nearest accumulation: fold a candidate
`(index, distance)` into the current best pair.  Ties keep the earlier
candidate (first-found). -/
def nnFold (acc : Option (ℕ × ℤ) × Option (ℕ × ℤ)) (c : ℕ × ℤ) :
    Option (ℕ × ℤ) × Option (ℕ × ℤ) :=
  match acc with
  | (none, _) => (some c, none)
  | (some b1, none) =>
      if c.2 < b1.2 then (some c, some b1) else (some b1, some c)
  | (some b1, some b2) =>
      if c.2 < b1.2 then (some c, some b1)
      else if c.2 < b2.2 then (some b1, some c)
      else (some b1, some b2)

/-- All `(index, squared distance)` candidates of a query descriptor against
a descriptor set. -/
def nnCandidates (q : List ℕ) (ds : List (List ℕ)) : List (ℕ × ℤ) :=
  (List.range ds.length).map (fun j => (j, sqDist q (ds.getD j [])))

/-- Nearest and second-nearest neighbour of `q` in `ds`:
`(some (index, distance) of the nearest, some (index, distance) of the
second-nearest)`, `none` where the set is too small. -/
def findNN2 (q : List ℕ) (ds : List (List ℕ)) :
    Option (ℕ × ℤ) × Option (ℕ × ℤ) :=
  (nnCandidates q ds).foldl nnFold (none, none)

/-- Index of the nearest neighbour of `q` in `ds`. -/
def nnIndex (q : List ℕ) (ds : List (List ℕ)) : Option ℕ :=
  ((findNN2 q ds).1).map Prod.fst

/-- The ratio test on squared distances: the nearest distance must be at most
`max_ratio²` times the second-nearest distance (equivalently, the unsquared
distance ratio is at most `max_ratio`).  With no second-nearest candidate the
test passes vacuously. -/
def ratioTestPass (o : SiftMatchingOptions) (best : ℤ)
    (second : Option (ℕ × ℤ)) : Bool :=
  match second with
  | none => true
  | some s => decide ((best : ℚ) ≤ o.max_ratio ^ 2 * (s.2 : ℚ))

/-- Modelled from the spec: the body of `MatchSiftFeaturesCPU` is not among
the sources (the header only declares it).  Per the spec, descriptor `i` of
set 1 yields a candidate match to its nearest neighbour in set 2 only if the
distance test (`≤ max_distance`, squared on both sides here), the ratio test,
and — when `cross_check` is set — the mutual-nearest-neighbour condition all
pass.  Returns `(index1, index2, squared distance)`. -/
def bestMatchFor (o : SiftMatchingOptions) (ds1 ds2 : List (List ℕ))
    (i : ℕ) : Option (ℕ × ℕ × ℤ) :=
  match findNN2 (ds1.getD i []) ds2 with
  | (none, _) => none
  | (some b1, b2) =>
      if decide ((b1.2 : ℚ) ≤ o.max_distance ^ 2) && ratioTestPass o b1.2 b2 &&
          (!o.cross_check || nnIndex (ds2.getD b1.1 []) ds1 == some i) then
        some (i, b1.1, b1.2)
      else none

/-- All accepted candidate matches, in index-1 order, with their squared
distances. -/
def rawMatches (o : SiftMatchingOptions) (ds1 ds2 : List (List ℕ)) :
    List (ℕ × ℕ × ℤ) :=
  (List.range ds1.length).filterMap (bestMatchFor o ds1 ds2)

/-- Ordering of candidate matches by ascending squared distance, used when the
`max_num_matches` cap truncates the match list (the spec keeps the
lowest-distance matches). -/
def matchLE (a b : ℕ × ℕ × ℤ) : Prop := a.2.2 ≤ b.2.2

instance : DecidableRel matchLE := fun a b => Int.decLe a.2.2 b.2.2

/-- Modelled from the spec: the body of `MatchSiftFeaturesCPU` is not among
the sources (the header only declares it).  Accepted matches (nearest
neighbour under distance test, ratio test and optional cross check) are
capped at `max_num_matches`, preferring lowest-distance matches when
truncating, and returned as `(index1, index2)` pairs. -/
def MatchSiftFeaturesCPU (o : SiftMatchingOptions) (ds1 ds2 : List (List ℕ)) :
    List (ℕ × ℕ) :=
  (((rawMatches o ds1 ds2).insertionSort matchLE).take
      o.max_num_matches.toNat).map (fun m => (m.1, m.2.1))

/-! ## Two-view estimator (adaptive RANSAC) -/

/-- The result of two-view geometric verification: the winning inlier count
and the validity flag. -/
structure TwoViewGeometry where
  numInliers : ℕ
  valid : Bool

/-- The adaptive re-estimate of the remaining iteration count, clamped to
`[min_num_trials, max_num_trials]` as the spec requires. -/
def clampTrials (o : SiftMatchingOptions) (est : ℕ) : ℕ :=
  max o.min_num_trials.toNat (min est o.max_num_trials.toNat)

/-- State of the robust sampling loop: the next trial index, the best score
seen so far, and the current (clamped) dynamic iteration bound. -/
structure RansacState where
  trial : ℕ
  bestScore : ℕ
  dynMax : ℕ

/-- Modelled from the spec: the robust sampling loop of the two-view
estimator is not among the sources.  Per the spec, each trial fits and scores
a model (`score` abstracts sampling, fitting and inlier counting for the
given trial index); after each improved score the remaining-iteration
estimate (`estimate`, abstracting the standard confidence/inlier-ratio
formula) is recomputed and clamped to `[min_num_trials, max_num_trials]`.
The loop runs while the trial index is below the dynamic bound; `fuel` is a
structural-termination budget. -/
def ransacLoop (o : SiftMatchingOptions) (score estimate : ℕ → ℕ) :
    ℕ → RansacState → RansacState
  | 0, st => st
  | fuel + 1, st =>
      if st.trial < st.dynMax then
        if st.bestScore < score st.trial then
          ransacLoop o score estimate fuel
            ⟨st.trial + 1, score st.trial, clampTrials o (estimate (score st.trial))⟩
        else
          ransacLoop o score estimate fuel ⟨st.trial + 1, st.bestScore, st.dynMax⟩
      else st

/-- Modelled from the spec: the two-view estimator body is not among the
sources.  Per the spec, an input with fewer matches than the minimal sample
size is detected before sampling and yields an immediate invalid result;
otherwise the sampling loop runs, seeded with the a-priori iteration estimate
(`apriori`, computed by the absent code from `confidence` and
`min_inlier_ratio`) clamped to the configured bounds, and the result is
marked invalid when the winning inlier count is below `min_num_inliers`.
Returns the geometry and the number of executed trials. -/
def EstimateTwoViewGeometry (o : SiftMatchingOptions)
    (sampleSize apriori : ℕ) (score estimate : ℕ → ℕ) (numMatches : ℕ) :
    TwoViewGeometry × ℕ :=
  if numMatches < sampleSize then (⟨0, false⟩, 0)
  else
    let st := ransacLoop o score estimate o.max_num_trials.toNat
      ⟨0, 0, clampTrials o apriori⟩
    (⟨st.bestScore, decide (o.min_num_inliers.toNat ≤ st.bestScore)⟩, st.trial)

/-! ## Guided matcher (`MatchGuidedSiftFeaturesCPU`) -/

/-- Modelled from the spec: for keypoint `i` of set 1, the guided matcher
searches set 2 for candidates whose pairing satisfies the fitted model's
geometric constraint within `max_error` (`residual` abstracts the model's
reprojection/epipolar residual); each candidate carries its descriptor
distance (`descDist`). -/
def guidedCandidates (o : SiftMatchingOptions) (residual : ℕ × ℕ → ℚ)
    (descDist : ℕ × ℕ → ℤ) (n2 : ℕ) (i : ℕ) : List (ℕ × ℤ) :=
  (List.range n2).filterMap (fun j =>
    if residual (i, j) ≤ o.max_error then some (j, descDist (i, j)) else none)

/-- First-found minimum of the second components (the best descriptor match
among the geometrically consistent candidates). -/
def argminSnd : List (ℕ × ℤ) → Option (ℕ × ℤ)
  | [] => none
  | c :: cs =>
      match argminSnd cs with
      | none => some c
      | some b => if b.2 < c.2 then some b else some c

/-- Modelled from the spec: the body of `MatchGuidedSiftFeaturesCPU` is not
among the sources.  Guided matching runs only if unguided geometric
verification already succeeded (an invalid input geometry is returned
unchanged, with no matches).  For each keypoint of set 1 it retains the best
descriptor match among the candidates satisfying the model constraint within
`max_error`, then re-estimates the geometry by re-scoring the enlarged match
set against the same constraint (no re-sampling). -/
def MatchGuidedSiftFeaturesCPU (o : SiftMatchingOptions)
    (residual : ℕ × ℕ → ℚ) (descDist : ℕ × ℕ → ℤ) (n1 n2 : ℕ)
    (geom : TwoViewGeometry) : List (ℕ × ℕ) × TwoViewGeometry :=
  if geom.valid = false then ([], geom)
  else
    let gm := (List.range n1).filterMap (fun i =>
      (argminSnd (guidedCandidates o residual descDist n2 i)).map
        (fun b => (i, b.1)))
    let inl := gm.countP (fun m => decide (residual m ≤ o.max_error))
    (gm, ⟨inl, decide (o.min_num_inliers.toNat ≤ inl)⟩)

/-! ## Feature extraction (`ExtractSiftFeaturesCPU`) -/

/-- A keypoint as produced by extraction and persisted by the text format:
position, scale and orientation angle. -/
structure FeatureKeypoint where
  x : ℚ
  y : ℚ
  scale : ℚ
  orientation : ℚ

/-- A raw scale-space detection: position, scale, peak and edge responses,
and the dominant gradient-histogram peaks (candidate orientation angles),
all abstracting the scale-space machinery the spec leaves unprescribed. -/
structure SiftDetection where
  x : ℚ
  y : ℚ
  scale : ℚ
  peakResponse : ℚ
  edgeResponse : ℚ
  orientations : List ℚ

/-- Descending-scale ordering used when `max_num_features` truncates the
detection list (the spec keeps the largest-scale features). -/
def scaleGE (a b : SiftDetection) : Prop := b.scale ≤ a.scale

instance : DecidableRel scaleGE := fun a b => Rat.instDecidableLe b.scale a.scale

/-- Modelled from the spec: detection filtering is not among the sources.
Detections below the peak-response threshold or above the edge threshold are
rejected; if more than `max_num_features` remain, the largest-scale features
are kept. -/
def detectedKeypoints (o : SiftExtractionOptions)
    (dets : List SiftDetection) : List SiftDetection :=
  let filtered := dets.filter (fun d =>
    decide (o.peak_threshold ≤ d.peakResponse) &&
    decide (d.edgeResponse ≤ o.edge_threshold))
  if o.max_num_features.toNat < filtered.length then
    (filtered.insertionSort scaleGE).take o.max_num_features.toNat
  else filtered

/-- A detection together with one assigned orientation angle: the unit from
which one keypoint and one descriptor are computed. -/
structure OrientedFeature where
  det : SiftDetection
  angle : ℚ

/-- Modelled from the spec: orientation assignment is not among the sources.
With `upright` the orientation is fixed to zero; with
`estimate_affine_shape` the orientation-count cap does not apply; otherwise
up to `max_num_orientations` dominant peaks each yield a feature. -/
def orientedFeatures (o : SiftExtractionOptions)
    (dets : List SiftDetection) : List OrientedFeature :=
  (detectedKeypoints o dets).flatMap (fun d =>
    if o.upright then [⟨d, 0⟩]
    else if o.estimate_affine_shape then d.orientations.map (fun a => ⟨d, a⟩)
    else (d.orientations.take o.max_num_orientations.toNat).map
      (fun a => ⟨d, a⟩))

/-- The keypoint recorded for an oriented feature. -/
def featureKeypoint (f : OrientedFeature) : FeatureKeypoint :=
  ⟨f.det.x, f.det.y, f.det.scale, f.angle⟩

/-- Modelled from the spec: the body of `ExtractSiftFeaturesCPU` is not among
the sources.  The detector output and per-feature descriptor computation are
abstracted (`dets`, `computeDescriptor`); keypoints and descriptors are both
mapped off the same oriented-feature list, and descriptors are computed only
when the caller passes a non-NULL descriptors pointer (`wantDescriptors`),
per the header comment at `sift.h` lines 155-156. -/
def ExtractSiftFeaturesCPU (o : SiftExtractionOptions)
    (dets : List SiftDetection) (computeDescriptor : OrientedFeature → List ℕ)
    (wantDescriptors : Bool) : List FeatureKeypoint × Option (List (List ℕ)) :=
  let feats := orientedFeatures o dets
  (feats.map featureKeypoint,
   if wantDescriptors then some (feats.map computeDescriptor) else none)

/-! ## Keypoint/descriptor text format (`LoadSiftFeaturesFromTextFile`)

The format of `sift.h` lines 180-199, with the numeric token stream of the
file modelled as one list of rationals per line (decimal rendering of the
floating-point fields is abstracted away; descriptor entries are integers in
`[0, 255]`). -/

/-- One feature line: `X Y SCALE ORIENTATION D_1 ... D_DIM`. -/
def serializeFeatureLine (kp : FeatureKeypoint) (d : List ℕ) : List ℚ :=
  kp.x :: kp.y :: kp.scale :: kp.orientation :: d.map (fun b : ℕ => (b : ℚ))

/-- Modelled from the spec: the writer of the text format is not among the
sources.  Line 0 is `NUM_FEATURES DIM`, followed by one line per feature. -/
def WriteSiftFeaturesToTextFile (kps : List FeatureKeypoint)
    (descs : List (List ℕ)) (dim : ℕ) : List (List ℚ) :=
  [(kps.length : ℚ), (dim : ℚ)] :: List.zipWith serializeFeatureLine kps descs

/-- A descriptor token must be an integer in `[0, 255]`. -/
def parseByte (q : ℚ) : Option ℕ :=
  if q.den = 1 ∧ 0 ≤ q.num ∧ q.num ≤ 255 then some q.num.toNat else none

/-- `Option`-valued map, failing when any element fails. -/
def optionMapList (f : α → Option β) : List α → Option (List β)
  | [] => some []
  | a :: as =>
      match f a, optionMapList f as with
      | some b, some bs => some (b :: bs)
      | _, _ => none

/-- Parse one feature line into a keypoint and its `dim` descriptor bytes. -/
def parseFeatureLine (dim : ℕ) : List ℚ → Option (FeatureKeypoint × List ℕ)
  | x :: y :: s :: a :: rest =>
      if rest.length = dim then
        (optionMapList parseByte rest).map (fun d => (⟨x, y, s, a⟩, d))
      else none
  | _ => none

/-- Modelled from the spec: the body of `LoadSiftFeaturesFromTextFile` is not
among the sources (the header only declares it).  The first line must hold
the feature count and descriptor dimensionality, followed by exactly that
many feature lines; keypoints and descriptors are reconstructed with
matching indices. -/
def LoadSiftFeaturesFromTextFile :
    List (List ℚ) → Option (List FeatureKeypoint × List (List ℕ))
  | [n, dim] :: rest =>
      if n.den = 1 ∧ 0 ≤ n.num ∧ dim.den = 1 ∧ 0 ≤ dim.num ∧
          rest.length = n.num.toNat then
        (optionMapList (parseFeatureLine dim.num.toNat) rest).map
          (fun ps => (ps.map Prod.fst, ps.map Prod.snd))
      else none
  | _ => none

/-! ## Theorems -/

/-- The clamped re-estimate never drops below `min_num_trials`. -/
theorem min_le_clampTrials (o : SiftMatchingOptions) (e : ℕ) :
    o.min_num_trials.toNat ≤ clampTrials o e :=
  le_max_left _ _

/-- The clamped re-estimate never exceeds `max_num_trials` (for consistent
bounds). -/
theorem clampTrials_le_max (o : SiftMatchingOptions) (e : ℕ)
    (h : o.min_num_trials.toNat ≤ o.max_num_trials.toNat) :
    clampTrials o e ≤ o.max_num_trials.toNat :=
  max_le h (min_le_right _ _)

/-- The sampling loop's final trial count lies in
`[min_num_trials, max_num_trials]` whenever the state invariant holds and the
fuel equals the remaining distance to `max_num_trials`. -/
theorem ransacLoop_trial_bounds (o : SiftMatchingOptions)
    (score estimate : ℕ → ℕ)
    (hmm : o.min_num_trials.toNat ≤ o.max_num_trials.toNat) (fuel : ℕ) :
    ∀ st : RansacState,
      o.min_num_trials.toNat ≤ st.dynMax →
      st.dynMax ≤ o.max_num_trials.toNat →
      st.trial + fuel = o.max_num_trials.toNat →
      o.min_num_trials.toNat ≤ (ransacLoop o score estimate fuel st).trial ∧
        (ransacLoop o score estimate fuel st).trial ≤
          o.max_num_trials.toNat := by
  induction fuel with
  | zero =>
      intro st h1 h2 h3
      rw [ransacLoop]
      omega
  | succ n ih =>
      intro st h1 h2 h3
      rw [ransacLoop]
      by_cases hlt : st.trial < st.dynMax
      · rw [if_pos hlt]
        by_cases himp : st.bestScore < score st.trial
        · rw [if_pos himp]
          exact ih _ (min_le_clampTrials o _) (clampTrials_le_max o _ hmm)
            (by simp only []; omega)
        · rw [if_neg himp]
          exact ih _ h1 h2 (by simp only []; omega)
      · rw [if_neg hlt]
        exact ⟨by omega, by omega⟩

/-- C1: for every candidate match set large enough for the minimal sample and
validated `MatchingOptions`, the two-view estimator's robust sampling loop
executes at least `min_num_trials` and at most `max_num_trials` iterations:
the adaptive re-estimate is always clamped to
`[min_num_trials, max_num_trials]`, so the loop terminates within the
configured bound. -/
theorem ransac_trials_within_configured_bounds (o : SiftMatchingOptions)
    (sampleSize apriori : ℕ) (score estimate : ℕ → ℕ) (numMatches : ℕ)
    (hchk : o.Check = true) (hn : sampleSize ≤ numMatches) :
    o.min_num_trials.toNat ≤
        (EstimateTwoViewGeometry o sampleSize apriori score estimate
          numMatches).2 ∧
      (EstimateTwoViewGeometry o sampleSize apriori score estimate
          numMatches).2 ≤ o.max_num_trials.toNat := by
  have hcons : o.min_num_trials ≤ o.max_num_trials := by
    simp only [SiftMatchingOptions.Check, Bool.and_eq_true,
      decide_eq_true_eq] at hchk
    exact hchk.1.1.1.1.1.2
  have hmm : o.min_num_trials.toNat ≤ o.max_num_trials.toNat :=
    Int.toNat_le_toNat hcons
  rw [EstimateTwoViewGeometry, if_neg (not_lt.mpr hn)]
  exact ransacLoop_trial_bounds o score estimate hmm _ _
    (min_le_clampTrials o _) (clampTrials_le_max o _ hmm) (by simp)

/-- Witness for C1 at concrete options (trial bounds 2 and 5), a constant
scorer and re-estimator, and ten candidate matches for a sample size of
eight. -/
theorem ransac_trials_bounds_witness :
    (({ min_num_trials := 2, max_num_trials := 5 } :
        SiftMatchingOptions)).min_num_trials.toNat ≤
        (EstimateTwoViewGeometry { min_num_trials := 2, max_num_trials := 5 }
          8 100 (fun _ => 0) (fun _ => 100) 10).2 ∧
      (EstimateTwoViewGeometry { min_num_trials := 2, max_num_trials := 5 }
          8 100 (fun _ => 0) (fun _ => 100) 10).2 ≤
        (({ min_num_trials := 2, max_num_trials := 5 } :
          SiftMatchingOptions)).max_num_trials.toNat :=
  ransac_trials_within_configured_bounds _ 8 100 (fun _ => 0) (fun _ => 100)
    10 (by norm_num [SiftMatchingOptions.Check]) (by norm_num)

/-- C4: the two-view estimator reports failures through the validity flag: a
winning inlier count below `min_num_inliers` yields an invalid geometry
regardless of score, and an input with too few matches for the minimal
sample yields an immediate invalid result with zero executed trials. -/
theorem twoview_invalid_result_policy (o : SiftMatchingOptions)
    (sampleSize apriori : ℕ) (score estimate : ℕ → ℕ) (numMatches : ℕ) :
    (numMatches < sampleSize →
      EstimateTwoViewGeometry o sampleSize apriori score estimate numMatches =
        (⟨0, false⟩, 0)) ∧
    ((EstimateTwoViewGeometry o sampleSize apriori score estimate
        numMatches).1.numInliers < o.min_num_inliers.toNat →
      (EstimateTwoViewGeometry o sampleSize apriori score estimate
        numMatches).1.valid = false) := by
  constructor
  · intro h
    rw [EstimateTwoViewGeometry, if_pos h]
  · intro h
    rw [EstimateTwoViewGeometry] at h ⊢
    by_cases hd : numMatches < sampleSize
    · rw [if_pos hd]
    · rw [if_neg hd] at h ⊢
      simpa using Nat.not_le.mpr h

/-- Witness for C4: three matches for a sample size of eight give the invalid
zero-trial result, and a zero-scoring run is marked invalid against the
default `min_num_inliers`. -/
theorem twoview_invalid_witness :
    EstimateTwoViewGeometry { min_num_trials := 2, max_num_trials := 5 } 8 3
        (fun _ => 0) (fun _ => 7) 3 = (⟨0, false⟩, 0) ∧
      (EstimateTwoViewGeometry { min_num_trials := 2, max_num_trials := 5 } 1
          3 (fun _ => 0) (fun _ => 7) 2).1.valid = false :=
  ⟨(twoview_invalid_result_policy _ 8 3 (fun _ => 0) (fun _ => 7) 3).1
      (by norm_num),
   (twoview_invalid_result_policy _ 1 3 (fun _ => 0) (fun _ => 7) 2).2
      (by decide)⟩

/-- C9: `Check()` accepts the documented defaults of both option records, and
rejects any record with a negative threshold, a non-positive octave count or
octave resolution, or `dsp_num_scales < 1`. -/
theorem check_accepts_defaults_and_rejects_invalid :
    SiftExtractionOptions.Check {} = true ∧
    SiftMatchingOptions.Check {} = true ∧
    (∀ o : SiftExtractionOptions,
      o.peak_threshold < 0 ∨ o.edge_threshold < 0 → o.Check = false) ∧
    (∀ o : SiftExtractionOptions,
      o.num_octaves ≤ 0 ∨ o.octave_resolution ≤ 0 → o.Check = false) ∧
    (∀ o : SiftExtractionOptions, o.dsp_num_scales < 1 → o.Check = false) ∧
    (∀ o : SiftMatchingOptions,
      o.max_ratio < 0 ∨ o.max_distance < 0 ∨ o.max_error < 0 →
        o.Check = false) := by
  refine ⟨by norm_num [SiftExtractionOptions.Check],
    by norm_num [SiftMatchingOptions.Check], ?_, ?_, ?_, ?_⟩
  · intro o h
    rw [Bool.eq_false_iff]
    intro hc
    simp only [SiftExtractionOptions.Check, Bool.and_eq_true,
      decide_eq_true_eq] at hc
    rcases h with h | h
    · exact absurd hc.1.1.1.1.1 (not_le.mpr h)
    · exact absurd hc.1.1.1.1.2 (not_le.mpr h)
  · intro o h
    rw [Bool.eq_false_iff]
    intro hc
    simp only [SiftExtractionOptions.Check, Bool.and_eq_true,
      decide_eq_true_eq] at hc
    rcases h with h | h
    · exact absurd hc.1.1.1.2 (not_lt.mpr h)
    · exact absurd hc.1.1.2 (not_lt.mpr h)
  · intro o h
    rw [Bool.eq_false_iff]
    intro hc
    simp only [SiftExtractionOptions.Check, Bool.and_eq_true,
      decide_eq_true_eq] at hc
    exact absurd hc.1.2 (not_le.mpr h)
  · intro o h
    rw [Bool.eq_false_iff]
    intro hc
    simp only [SiftMatchingOptions.Check, Bool.and_eq_true,
      decide_eq_true_eq] at hc
    rcases h with h | h | h
    · exact absurd hc.1.1.1.1.1.1.1.1.1 (not_le.mpr h)
    · exact absurd hc.1.1.1.1.1.1.1.1.2 (not_le.mpr h)
    · exact absurd hc.1.1.1.1.1.1.1.2 (not_le.mpr h)

/-- Witness for C9: the defaults pass, and a concrete record with
`num_octaves = 0` fails. -/
theorem check_defaults_witness :
    SiftExtractionOptions.Check {} = true ∧
    SiftExtractionOptions.Check { num_octaves := 0 } = false :=
  ⟨check_accepts_defaults_and_rejects_invalid.1,
   check_accepts_defaults_and_rejects_invalid.2.2.2.1 { num_octaves := 0 }
     (Or.inl (by decide))⟩

/-- Squared Euclidean distances are non-negative. -/
theorem sqDist_nonneg : ∀ a b : List ℕ, 0 ≤ sqDist a b
  | [], _ => le_refl 0
  | _ :: _, [] => le_refl 0
  | x :: a, y :: b => by
      have ih := sqDist_nonneg a b
      simp only [sqDist, List.zipWith_cons_cons, List.sum_cons] at ih ⊢
      exact add_nonneg (sq_nonneg _) ih

/-- Each component of one `nnFold` step is the new candidate, a component of
the accumulator, or `none`. -/
theorem nnFold_cases (acc : Option (ℕ × ℤ) × Option (ℕ × ℤ)) (c : ℕ × ℤ) :
    ((nnFold acc c).1 = some c ∨ (nnFold acc c).1 = acc.1) ∧
      ((nnFold acc c).2 = some c ∨ (nnFold acc c).2 = acc.1 ∨
        (nnFold acc c).2 = acc.2 ∨ (nnFold acc c).2 = none) := by
  rcases acc with ⟨_ | b1, _ | b2⟩ <;> simp only [nnFold] <;>
    (try split_ifs) <;> simp

/-- The nearest/second-nearest fold preserves non-negativity of the recorded
distances. -/
theorem foldl_nnFold_nonneg :
    ∀ (l : List (ℕ × ℤ)) (acc : Option (ℕ × ℤ) × Option (ℕ × ℤ)),
      (∀ x ∈ l, 0 ≤ x.2) →
      (∀ b, acc.1 = some b → 0 ≤ b.2) →
      (∀ b, acc.2 = some b → 0 ≤ b.2) →
      (∀ b, (l.foldl nnFold acc).1 = some b → 0 ≤ b.2) ∧
        ∀ b, (l.foldl nnFold acc).2 = some b → 0 ≤ b.2
  | [], _, _, h1, h2 => ⟨h1, h2⟩
  | c :: l, acc, hl, h1, h2 => by
      rw [List.foldl_cons]
      have hc : 0 ≤ c.2 := hl c (List.mem_cons_self c l)
      have hcase := nnFold_cases acc c
      refine foldl_nnFold_nonneg l (nnFold acc c)
        (fun x hx => hl x (List.mem_cons_of_mem _ hx)) ?_ ?_
      · intro b hb
        rcases hcase.1 with h | h
        · rw [h] at hb
          injection hb with hb
          exact hb ▸ hc
        · exact h1 b (h ▸ hb)
      · intro b hb
        rcases hcase.2 with h | h | h | h
        · rw [h] at hb
          injection hb with hb
          exact hb ▸ hc
        · exact h1 b (h ▸ hb)
        · exact h2 b (h ▸ hb)
        · rw [h] at hb
          cases hb

/-- The second-nearest distance reported by `findNN2` is non-negative. -/
theorem findNN2_snd_nonneg (q : List ℕ) (ds : List (List ℕ)) (b : ℕ × ℤ)
    (hb : (findNN2 q ds).2 = some b) : 0 ≤ b.2 := by
  refine (foldl_nnFold_nonneg (nnCandidates q ds) (none, none) ?_
    (by intro b hb; cases hb) (by intro b hb; cases hb)).2 b hb
  intro x hx
  rcases List.mem_map.mp hx with ⟨j, _, rfl⟩
  exact sqDist_nonneg _ _

/-- Characterization of an accepted candidate match: its first index is the
query index, its second index and distance are the nearest neighbour's, and
the distance test, ratio test and (when enabled) cross check all passed. -/
theorem bestMatchFor_eq_some (o : SiftMatchingOptions)
    (ds1 ds2 : List (List ℕ)) (i : ℕ) (t : ℕ × ℕ × ℤ)
    (h : bestMatchFor o ds1 ds2 i = some t) :
    t.1 = i ∧
      ∃ b2, findNN2 (ds1.getD i []) ds2 = (some (t.2.1, t.2.2), b2) ∧
        ((t.2.2 : ℚ) ≤ o.max_distance ^ 2) ∧
        ratioTestPass o t.2.2 b2 = true ∧
        (o.cross_check = true → nnIndex (ds2.getD t.2.1 []) ds1 = some i) := by
  rw [bestMatchFor] at h
  rcases hf : findNN2 (ds1.getD i []) ds2 with ⟨b1?, b2⟩
  rw [hf] at h
  cases b1? with
  | none => cases h
  | some b1 =>
      dsimp only [] at h
      by_cases hcond : (decide ((b1.2 : ℚ) ≤ o.max_distance ^ 2) &&
          ratioTestPass o b1.2 b2 &&
          (!o.cross_check || nnIndex (ds2.getD b1.1 []) ds1 == some i)) = true
      · rw [if_pos hcond] at h
        injection h with h
        subst h
        rw [Bool.and_eq_true, Bool.and_eq_true] at hcond
        obtain ⟨⟨ha, hb⟩, hcc⟩ := hcond
        refine ⟨rfl, b2, rfl, decide_eq_true_eq.mp ha, hb, ?_⟩
        intro hcx
        rw [hcx] at hcc
        simpa using hcc
      · rw [if_neg hcond] at h
        cases h

/-- Every match returned by the matcher descends from an accepted candidate
match. -/
theorem mem_matchSift (o : SiftMatchingOptions) (ds1 ds2 : List (List ℕ))
    (m : ℕ × ℕ) (hm : m ∈ MatchSiftFeaturesCPU o ds1 ds2) :
    ∃ t ∈ rawMatches o ds1 ds2, m = (t.1, t.2.1) := by
  rw [MatchSiftFeaturesCPU] at hm
  rcases List.mem_map.mp hm with ⟨t, ht, rfl⟩
  exact ⟨t, (List.perm_insertionSort matchLE _).mem_iff.mp
    (List.mem_of_mem_take ht), rfl⟩

/-- Every accepted candidate match is its own index's `bestMatchFor`. -/
theorem rawMatches_spec (o : SiftMatchingOptions) (ds1 ds2 : List (List ℕ))
    (t : ℕ × ℕ × ℤ) (ht : t ∈ rawMatches o ds1 ds2) :
    bestMatchFor o ds1 ds2 t.1 = some t := by
  rw [rawMatches] at ht
  rcases List.mem_filterMap.mp ht with ⟨i, _, hi⟩
  have := (bestMatchFor_eq_some o ds1 ds2 i t hi).1
  rw [this]
  exact hi

/-- `filterMap` by a function that stamps each input as the first component
of its output produces a list with `Nodup` first components. -/
theorem nodup_fst_filterMap {β : Type} (f : ℕ → Option (ℕ × β))
    (hf : ∀ i v, f i = some v → v.1 = i) :
    ∀ l : List ℕ, l.Nodup → ((l.filterMap f).map Prod.fst).Nodup
  | [], _ => List.nodup_nil
  | a :: l, h => by
      rw [List.filterMap_cons]
      rcases hfa : f a with _ | v
      · exact nodup_fst_filterMap f hf l (List.Nodup.of_cons h)
      · rw [List.map_cons]
        refine List.nodup_cons.mpr
          ⟨?_, nodup_fst_filterMap f hf l (List.Nodup.of_cons h)⟩
        intro hmem
        rcases List.mem_map.mp hmem with ⟨w, hw, hww⟩
        rcases List.mem_filterMap.mp hw with ⟨b, hb, hfb⟩
        have hwb : w.1 = b := hf b w hfb
        have hva : v.1 = a := hf a v hfa
        rw [hwb, hva] at hww
        exact (List.nodup_cons.mp h).1 (hww ▸ hb)

/-- C2: with `cross_check` enabled, every retained match `(i, j)` is a mutual
nearest neighbour — descriptor `i`'s nearest neighbour in set 2 is `j` and
descriptor `j`'s nearest neighbour in set 1 is `i` — and the returned match
sequence has no duplicate index-1 values. -/
theorem matchSift_crosscheck_mutual_and_nodup (o : SiftMatchingOptions)
    (ds1 ds2 : List (List ℕ)) (hcx : o.cross_check = true) :
    (∀ m ∈ MatchSiftFeaturesCPU o ds1 ds2,
      nnIndex (ds1.getD m.1 []) ds2 = some m.2 ∧
        nnIndex (ds2.getD m.2 []) ds1 = some m.1) ∧
      ((MatchSiftFeaturesCPU o ds1 ds2).map Prod.fst).Nodup := by
  constructor
  · intro m hm
    rcases mem_matchSift o ds1 ds2 m hm with ⟨t, ht, rfl⟩
    rcases bestMatchFor_eq_some o ds1 ds2 t.1 t (rawMatches_spec o ds1 ds2 t ht)
      with ⟨-, b2, hf, -, -, hccx⟩
    constructor
    · simp only [nnIndex]
      rw [hf]
      rfl
    · exact hccx hcx
  · have hraw : ((rawMatches o ds1 ds2).map Prod.fst).Nodup :=
      nodup_fst_filterMap (bestMatchFor o ds1 ds2)
        (fun i v hv => (bestMatchFor_eq_some o ds1 ds2 i v hv).1) _
        (List.nodup_range _)
    have hsorted : (((rawMatches o ds1 ds2).insertionSort matchLE).map
        Prod.fst).Nodup :=
      (((List.perm_insertionSort matchLE _).map Prod.fst).nodup_iff).mpr hraw
    have htake :
        ((((rawMatches o ds1 ds2).insertionSort matchLE).take
          o.max_num_matches.toNat).map Prod.fst).Nodup :=
      ((List.take_sublist _ _).map Prod.fst).nodup hsorted
    rw [MatchSiftFeaturesCPU, List.map_map]
    exact htake

/-- Witness for C2 at the default options and two concrete descriptor sets. -/
theorem matchSift_crosscheck_witness :
    (∀ m ∈ MatchSiftFeaturesCPU {} [[0, 0], [10, 0]] [[0, 0], [10, 0]],
      nnIndex (([[0, 0], [10, 0]] : List (List ℕ)).getD m.1 [])
          [[0, 0], [10, 0]] = some m.2 ∧
        nnIndex (([[0, 0], [10, 0]] : List (List ℕ)).getD m.2 [])
          [[0, 0], [10, 0]] = some m.1) ∧
      ((MatchSiftFeaturesCPU {} [[0, 0], [10, 0]] [[0, 0], [10, 0]]).map
        Prod.fst).Nodup :=
  matchSift_crosscheck_mutual_and_nodup {} [[0, 0], [10, 0]]
    [[0, 0], [10, 0]] rfl

/-- C3: every retained match's nearest-neighbour distance passes the absolute
distance test (`≤ max_distance`, squared on both sides here) and the ratio
test against the second-nearest distance; a descriptor failing either test
produces no match. -/
theorem matchSift_distance_and_ratio_tests (o : SiftMatchingOptions)
    (ds1 ds2 : List (List ℕ)) :
    (∀ m ∈ MatchSiftFeaturesCPU o ds1 ds2, ∃ d b2,
      findNN2 (ds1.getD m.1 []) ds2 = (some (m.2, d), b2) ∧
        (d : ℚ) ≤ o.max_distance ^ 2 ∧ ratioTestPass o d b2 = true) ∧
      ∀ i b1 b2, findNN2 (ds1.getD i []) ds2 = (some b1, b2) →
        ¬((b1.2 : ℚ) ≤ o.max_distance ^ 2 ∧ ratioTestPass o b1.2 b2 = true) →
        ∀ j, (i, j) ∉ MatchSiftFeaturesCPU o ds1 ds2 := by
  constructor
  · intro m hm
    rcases mem_matchSift o ds1 ds2 m hm with ⟨t, ht, rfl⟩
    rcases bestMatchFor_eq_some o ds1 ds2 t.1 t (rawMatches_spec o ds1 ds2 t ht)
      with ⟨-, b2, hf, hd, hr, -⟩
    exact ⟨t.2.2, b2, hf, hd, hr⟩
  · intro i b1 b2 hf hfail j hmem
    rcases mem_matchSift o ds1 ds2 (i, j) hmem with ⟨t, ht, hij⟩
    have h1 : t.1 = i := congrArg Prod.fst hij.symm
    rcases bestMatchFor_eq_some o ds1 ds2 t.1 t (rawMatches_spec o ds1 ds2 t ht)
      with ⟨-, b2x, hfx, hd, hr, -⟩
    rw [h1, hf] at hfx
    injection hfx with hA hB
    injection hA with hA
    refine hfail ⟨?_, ?_⟩
    · rw [hA]
      exact hd
    · rw [hA, hB]
      exact hr

/-- Pointwise `isSome` monotonicity gives `filterMap` length monotonicity. -/
theorem length_filterMap_mono {α β : Type} (f g : α → Option β)
    (h : ∀ a : α, (f a).isSome = true → (g a).isSome = true) :
    ∀ l : List α, (l.filterMap f).length ≤ (l.filterMap g).length
  | [] => le_refl 0
  | a :: l => by
      rw [List.filterMap_cons, List.filterMap_cons]
      rcases hfa : f a with _ | b
      · rcases hga : g a with _ | c
        · exact length_filterMap_mono f g h l
        · exact (length_filterMap_mono f g h l).trans (Nat.le_succ _)
      · have hsome : (g a).isSome = true := h a (by rw [hfa]; rfl)
        rcases hga : g a with _ | c
        · rw [hga] at hsome
          cases hsome
        · simpa using Nat.succ_le_succ (length_filterMap_mono f g h l)

/-- Tightening `max_ratio` only tightens the ratio test (the second-nearest
distance is non-negative, so scaling the bound is monotone). -/
theorem ratioTestPass_mono (o : SiftMatchingOptions) (r : ℚ) (best : ℤ)
    (second : Option (ℕ × ℤ)) (h0 : 0 ≤ r) (h1 : r ≤ o.max_ratio)
    (hsec : ∀ s, second = some s → 0 ≤ s.2)
    (h : ratioTestPass { o with max_ratio := r } best second = true) :
    ratioTestPass o best second = true := by
  rcases second with _ | s
  · rfl
  · simp only [ratioTestPass, decide_eq_true_eq] at h ⊢
    have hs : (0 : ℚ) ≤ (s.2 : ℚ) := by exact_mod_cast hsec s rfl
    exact h.trans
      (mul_le_mul_of_nonneg_right (pow_le_pow_left₀ h0 h1 2) hs)

/-- Tightening `max_ratio` never turns a rejected query descriptor into an
accepted one. -/
theorem bestMatchFor_isSome_mono (o : SiftMatchingOptions) (r : ℚ)
    (ds1 ds2 : List (List ℕ)) (h0 : 0 ≤ r) (h1 : r ≤ o.max_ratio) (i : ℕ)
    (h : (bestMatchFor { o with max_ratio := r } ds1 ds2 i).isSome = true) :
    (bestMatchFor o ds1 ds2 i).isSome = true := by
  rw [bestMatchFor] at h ⊢
  rcases hf : findNN2 (ds1.getD i []) ds2 with ⟨b1?, b2⟩
  rw [hf] at h
  cases b1? with
  | none => simp at h
  | some b1 =>
      dsimp only [] at h ⊢
      by_cases hcond : (decide ((b1.2 : ℚ) ≤ o.max_distance ^ 2) &&
          ratioTestPass { o with max_ratio := r } b1.2 b2 &&
          (!o.cross_check || nnIndex (ds2.getD b1.1 []) ds1 == some i)) = true
      · rw [Bool.and_eq_true, Bool.and_eq_true] at hcond
        obtain ⟨⟨ha, hb⟩, hcc⟩ := hcond
        have hb' : ratioTestPass o b1.2 b2 = true :=
          ratioTestPass_mono o r b1.2 b2 h0 h1
            (fun s hs => findNN2_snd_nonneg _ ds2 s (by rw [hf]; exact hs)) hb
        rw [if_pos (by rw [ha, hb', hcc]; rfl)]
        rfl
      · rw [if_neg hcond] at h
        cases h

/-- C6: for fixed descriptor sets and otherwise fixed options, decreasing
`max_ratio` (toward 0) never increases the number of retained matches. -/
theorem matchSift_ratio_monotone (o : SiftMatchingOptions)
    (ds1 ds2 : List (List ℕ)) (r : ℚ) (h0 : 0 ≤ r) (h1 : r ≤ o.max_ratio) :
    (MatchSiftFeaturesCPU { o with max_ratio := r } ds1 ds2).length ≤
      (MatchSiftFeaturesCPU o ds1 ds2).length := by
  rw [MatchSiftFeaturesCPU, MatchSiftFeaturesCPU, List.length_map,
    List.length_map, List.length_take, List.length_take,
    (List.perm_insertionSort matchLE _).length_eq,
    (List.perm_insertionSort matchLE _).length_eq]
  exact min_le_min (le_refl _)
    (length_filterMap_mono _ _
      (fun i => bestMatchFor_isSome_mono o r ds1 ds2 h0 h1 i) _)

/-- Witness for C6 at the default options with the ratio threshold tightened
from 0.8 to 0.5. -/
theorem matchSift_ratio_monotone_witness :
    (MatchSiftFeaturesCPU
        { ({} : SiftMatchingOptions) with max_ratio := 1 / 2 }
        [[0, 0], [10, 0]] [[0, 0], [10, 0]]).length ≤
      (MatchSiftFeaturesCPU {} [[0, 0], [10, 0]] [[0, 0], [10, 0]]).length :=
  matchSift_ratio_monotone {} [[0, 0], [10, 0]] [[0, 0], [10, 0]] (1 / 2)
    (by norm_num) (by norm_num)

/-- `argminSnd` of a non-empty list returns a value. -/
theorem argminSnd_isSome : ∀ (c : ℕ × ℤ) (l : List (ℕ × ℤ)),
    (argminSnd (c :: l)).isSome = true := by
  intro c l
  rw [argminSnd]
  rcases argminSnd l with _ | b
  · rfl
  · dsimp only []
    split_ifs <;> rfl

/-- `argminSnd` returns an element of its input. -/
theorem argminSnd_mem : ∀ (l : List (ℕ × ℤ)) (b : ℕ × ℤ),
    argminSnd l = some b → b ∈ l
  | [], b, h => by cases h
  | c :: l, b, h => by
      rw [argminSnd] at h
      rcases ha : argminSnd l with _ | w
      · rw [ha] at h
        injection h with h
        exact h ▸ List.mem_cons_self c l
      · rw [ha] at h
        dsimp only [] at h
        split_ifs at h with hlt
        · injection h with h
          exact List.mem_cons_of_mem c (argminSnd_mem l b (h ▸ ha))
        · injection h with h
          exact h ▸ List.mem_cons_self c l

/-- Every geometrically admissible candidate satisfies the model constraint
within `max_error`. -/
theorem mem_guidedCandidates (o : SiftMatchingOptions)
    (residual : ℕ × ℕ → ℚ) (descDist : ℕ × ℕ → ℤ) (n2 i : ℕ) (b : ℕ × ℤ)
    (hb : b ∈ guidedCandidates o residual descDist n2 i) :
    residual (i, b.1) ≤ o.max_error := by
  rw [guidedCandidates] at hb
  rcases List.mem_filterMap.mp hb with ⟨j, _, hj⟩
  split_ifs at hj with hr
  injection hj with hj
  exact hj ▸ hr

/-- An in-range pairing within `max_error` shows up among the guided
candidates. -/
theorem guidedCandidates_mem (o : SiftMatchingOptions)
    (residual : ℕ × ℕ → ℚ) (descDist : ℕ × ℕ → ℤ) (n2 i j : ℕ)
    (hj : j < n2) (hr : residual (i, j) ≤ o.max_error) :
    (j, descDist (i, j)) ∈ guidedCandidates o residual descDist n2 i := by
  rw [guidedCandidates]
  exact List.mem_filterMap.mpr
    ⟨j, List.mem_range.mpr hj, by rw [if_pos hr]⟩

/-- `filterMap` length equals the count of inputs mapped to `some`. -/
theorem length_filterMap_eq_countP {α β : Type} (f : α → Option β) :
    ∀ l : List α, (l.filterMap f).length = l.countP (fun a => (f a).isSome)
  | [] => rfl
  | a :: l => by
      rw [List.filterMap_cons, List.countP_cons]
      rcases hfa : f a with _ | b
      · simp [hfa, length_filterMap_eq_countP f l]
      · simp [hfa, length_filterMap_eq_countP f l]

/-- C5: guided matching runs only when unguided geometric verification has
already succeeded (an invalid geometry is passed through unchanged with no
matches), and for a valid geometry with at least one unguided inlier the
returned inlier count is at least the unguided match set's inlier count for
the same geometry. -/
theorem guided_matching_never_decreases_inliers (o : SiftMatchingOptions)
    (residual : ℕ × ℕ → ℚ) (descDist : ℕ × ℕ → ℤ) (n1 n2 : ℕ)
    (geom : TwoViewGeometry) (ms : List (ℕ × ℕ))
    (hvalid : geom.valid = true)
    (hnodup : (ms.map Prod.fst).Nodup)
    (hbound : ∀ m ∈ ms, m.1 < n1 ∧ m.2 < n2)
    (hex : 0 < ms.countP (fun m => decide (residual m ≤ o.max_error))) :
    ms.countP (fun m => decide (residual m ≤ o.max_error)) ≤
        (MatchGuidedSiftFeaturesCPU o residual descDist n1 n2
          geom).2.numInliers ∧
      ∀ g : TwoViewGeometry, g.valid = false →
        MatchGuidedSiftFeaturesCPU o residual descDist n1 n2 g = ([], g) := by
  constructor
  · rw [MatchGuidedSiftFeaturesCPU, if_neg (by rw [hvalid]; simp)]
    dsimp only []
    set p : ℕ × ℕ → Bool := fun m => decide (residual m ≤ o.max_error) with hp
    set fg : ℕ → Option (ℕ × ℕ) := fun i =>
      (argminSnd (guidedCandidates o residual descDist n2 i)).map
        (fun b => (i, b.1)) with hfg
    have hall : ∀ m ∈ (List.range n1).filterMap fg, p m = true := by
      intro m hm
      rcases List.mem_filterMap.mp hm with ⟨i, _, hi⟩
      simp only [hfg] at hi
      rcases ha : argminSnd (guidedCandidates o residual descDist n2 i)
        with _ | b
      · rw [ha] at hi
        cases hi
      · rw [ha] at hi
        injection hi with hi
        have hbmem := argminSnd_mem _ b ha
        have hres := mem_guidedCandidates o residual descDist n2 i b hbmem
        rw [hp, ← hi]
        exact decide_eq_true hres
    have hgm : ((List.range n1).filterMap fg).countP p =
        ((List.range n1).filterMap fg).length :=
      List.countP_eq_length.mpr hall
    rw [hgm, length_filterMap_eq_countP,
      List.countP_eq_length_filter p ms,
      List.countP_eq_length_filter _ (List.range n1)]
    have hsub : (ms.filter p).map Prod.fst ⊆
        (List.range n1).filter (fun i => (fg i).isSome) := by
      intro x hx
      rcases List.mem_map.mp hx with ⟨m, hmf, rfl⟩
      have hmm := List.mem_of_mem_filter hmf
      have hpm : p m = true := List.of_mem_filter hmf
      have hres : residual m ≤ o.max_error := by
        rw [hp] at hpm
        exact of_decide_eq_true hpm
      refine List.mem_filter.mpr ⟨List.mem_range.mpr (hbound m hmm).1, ?_⟩
      rw [hfg]
      have hcand : (m.2, descDist (m.1, m.2)) ∈
          guidedCandidates o residual descDist n2 m.1 :=
        guidedCandidates_mem o residual descDist n2 m.1 m.2
          (hbound m hmm).2 hres
      rcases hc : guidedCandidates o residual descDist n2 m.1 with _ | ⟨c, cs⟩
      · rw [hc] at hcand
        cases hcand
      · rw [Option.isSome_map']
        rw [hc]
        exact argminSnd_isSome c cs
    have hnd : ((ms.filter p).map Prod.fst).Nodup :=
      ((List.filter_sublist ms).map Prod.fst).nodup hnodup
    calc (ms.filter p).length
        = ((ms.filter p).map Prod.fst).length := (List.length_map _ _).symm
      _ ≤ ((List.range n1).filter (fun i => (fg i).isSome)).length :=
          (List.subperm_of_subset hnd hsub).length_le
  · intro g hg
    rw [MatchGuidedSiftFeaturesCPU, if_pos hg]

/-- Witness for C5 at a concrete valid geometry, a constant residual within
the default `max_error`, and one unguided inlier match. -/
theorem guided_matching_witness :
    ([(0, 0)] : List (ℕ × ℕ)).countP
        (fun m => decide ((fun _ : ℕ × ℕ => (0 : ℚ)) m ≤
          ({} : SiftMatchingOptions).max_error)) ≤
        (MatchGuidedSiftFeaturesCPU {} (fun _ => (0 : ℚ)) (fun _ => (0 : ℤ))
          1 1 ⟨1, true⟩).2.numInliers ∧
      ∀ g : TwoViewGeometry, g.valid = false →
        MatchGuidedSiftFeaturesCPU {} (fun _ => (0 : ℚ)) (fun _ => (0 : ℤ))
          1 1 g = ([], g) :=
  guided_matching_never_decreases_inliers {} (fun _ => (0 : ℚ))
    (fun _ => (0 : ℤ)) 1 1 ⟨1, true⟩ [(0, 0)] rfl (by simp) (by decide)
    (by
      have hd : (decide ((fun _ : ℕ × ℕ => (0 : ℚ)) (0, 0) ≤
          ({} : SiftMatchingOptions).max_error)) = true :=
        decide_eq_true (show (0 : ℚ) ≤ 4 by norm_num)
      simp [List.countP_cons, hd])

/-- `getD` commutes with `map` below the length bound (any defaults). -/
theorem getD_map_of_lt {α β : Type} (g : α → β) :
    ∀ (l : List α) (i : ℕ) (d : α) (e : β), i < l.length →
      (l.map g).getD i e = g (l.getD i d)
  | [], i, _, _, h => absurd h (by simp)
  | a :: l, 0, _, _, _ => rfl
  | a :: l, i + 1, d, e, h => by
      simp only [List.map_cons, List.getD_cons_succ]
      exact getD_map_of_lt g l i d e (by simpa using h)

/-- C8: the keypoint list and the descriptor list produced by the extractor
have equal length, and entry `i` of each is computed from the same oriented
feature, for every index. -/
theorem extract_keypoint_descriptor_coupling (o : SiftExtractionOptions)
    (dets : List SiftDetection) (f : OrientedFeature → List ℕ)
    (ds : List (List ℕ))
    (h : (ExtractSiftFeaturesCPU o dets f true).2 = some ds) :
    (ExtractSiftFeaturesCPU o dets f true).1.length = ds.length ∧
      ∀ i, i < ds.length →
        (ExtractSiftFeaturesCPU o dets f true).1.getD i ⟨0, 0, 0, 0⟩ =
          featureKeypoint ((orientedFeatures o dets).getD i
            ⟨⟨0, 0, 0, 0, 0, []⟩, 0⟩) ∧
        ds.getD i [] = f ((orientedFeatures o dets).getD i
          ⟨⟨0, 0, 0, 0, 0, []⟩, 0⟩) := by
  have h2 : (ExtractSiftFeaturesCPU o dets f true).2 =
      some ((orientedFeatures o dets).map f) := by
    simp [ExtractSiftFeaturesCPU]
  have hds : ds = (orientedFeatures o dets).map f := by
    rw [h2] at h
    exact (Option.some.inj h).symm
  have h1 : (ExtractSiftFeaturesCPU o dets f true).1 =
      (orientedFeatures o dets).map featureKeypoint := by
    simp [ExtractSiftFeaturesCPU]
  constructor
  · rw [h1, hds, List.length_map, List.length_map]
  · intro i hi
    have hi' : i < (orientedFeatures o dets).length := by
      rw [hds, List.length_map] at hi
      exact hi
    constructor
    · rw [h1]
      exact getD_map_of_lt featureKeypoint _ i ⟨⟨0, 0, 0, 0, 0, []⟩, 0⟩ _ hi'
    · rw [hds]
      exact getD_map_of_lt f _ i ⟨⟨0, 0, 0, 0, 0, []⟩, 0⟩ _ hi'

/-- Witness for C8 at an empty detection list (the hypothesis is discharged
by computation). -/
theorem extract_coupling_witness :
    (ExtractSiftFeaturesCPU {} [] (fun _ => []) true).1.length =
        ([] : List (List ℕ)).length ∧
      ∀ i, i < ([] : List (List ℕ)).length →
        (ExtractSiftFeaturesCPU {} [] (fun _ => []) true).1.getD i
            ⟨0, 0, 0, 0⟩ =
          featureKeypoint ((orientedFeatures {} []).getD i
            ⟨⟨0, 0, 0, 0, 0, []⟩, 0⟩) ∧
        ([] : List (List ℕ)).getD i [] = (fun _ => ([] : List ℕ))
          ((orientedFeatures {} []).getD i ⟨⟨0, 0, 0, 0, 0, []⟩, 0⟩) :=
  extract_keypoint_descriptor_coupling {} [] (fun _ => []) [] rfl

/-- C10: with a NULL descriptors pointer the extractor computes no
descriptors and still produces the same keypoints as the
descriptor-computing call. -/
theorem extract_null_descriptor_pointer (o : SiftExtractionOptions)
    (dets : List SiftDetection) (f : OrientedFeature → List ℕ) :
    (ExtractSiftFeaturesCPU o dets f false).2 = none ∧
      (ExtractSiftFeaturesCPU o dets f false).1 =
        (ExtractSiftFeaturesCPU o dets f true).1 :=
  ⟨rfl, rfl⟩

/-- A cast descriptor byte parses back to itself. -/
theorem parseByte_natCast (b : ℕ) (hb : b ≤ 255) :
    parseByte (b : ℚ) = some b := by
  rw [parseByte, if_pos]
  · rw [Rat.num_natCast, Int.toNat_natCast]
  · refine ⟨Rat.den_natCast b, ?_, ?_⟩
    · rw [Rat.num_natCast]
      exact Int.natCast_nonneg b
    · rw [Rat.num_natCast]
      exact_mod_cast hb

/-- A descriptor rendered as rational tokens parses back to its bytes. -/
theorem optionMapList_parseByte (d : List ℕ) (hd : ∀ b ∈ d, b ≤ 255) :
    optionMapList parseByte (d.map (fun b : ℕ => (b : ℚ))) = some d := by
  induction d with
  | nil => rfl
  | cons b d ih =>
      rw [List.map_cons, optionMapList,
        parseByte_natCast b (hd b (List.mem_cons_self b d)),
        ih (fun x hx => hd x (List.mem_cons_of_mem _ hx))]

/-- A serialized feature line parses back to its keypoint and descriptor. -/
theorem parseFeatureLine_serialize (dim : ℕ) (kp : FeatureKeypoint)
    (d : List ℕ) (hlen : d.length = dim) (hd : ∀ b ∈ d, b ≤ 255) :
    parseFeatureLine dim (serializeFeatureLine kp d) = some (kp, d) := by
  rw [serializeFeatureLine, parseFeatureLine,
    if_pos (by simpa using hlen), optionMapList_parseByte d hd]
  rfl

/-- The serialized feature lines parse back to the zipped
keypoint/descriptor pairs. -/
theorem optionMapList_parse_lines (dim : ℕ) :
    ∀ (kps : List FeatureKeypoint) (descs : List (List ℕ)),
      (∀ d ∈ descs, d.length = dim) →
      (∀ d ∈ descs, ∀ b ∈ d, b ≤ 255) →
      optionMapList (parseFeatureLine dim)
          (List.zipWith serializeFeatureLine kps descs) =
        some (kps.zip descs)
  | [], _, _, _ => rfl
  | _ :: _, [], _, _ => rfl
  | k :: kps, d :: descs, hdim, hbyte => by
      rw [List.zipWith_cons_cons, optionMapList,
        parseFeatureLine_serialize dim k d
          (hdim d (List.mem_cons_self d descs))
          (hbyte d (List.mem_cons_self d descs)),
        optionMapList_parse_lines dim kps descs
          (fun x hx => hdim x (List.mem_cons_of_mem _ hx))
          (fun x hx => hbyte x (List.mem_cons_of_mem _ hx)),
        List.zip_cons_cons]

/-- C7: writing keypoints and descriptors in the documented text format and
loading the result reconstructs both lists exactly (keypoint fields are kept
as rationals, so the reconstruction is within any floating-point
tolerance). -/
theorem load_write_roundtrip (kps : List FeatureKeypoint)
    (descs : List (List ℕ)) (dim : ℕ) (hlen : kps.length = descs.length)
    (hdim : ∀ d ∈ descs, d.length = dim)
    (hbyte : ∀ d ∈ descs, ∀ b ∈ d, b ≤ 255) :
    LoadSiftFeaturesFromTextFile
        (WriteSiftFeaturesToTextFile kps descs dim) = some (kps, descs) := by
  rw [WriteSiftFeaturesToTextFile, LoadSiftFeaturesFromTextFile]
  rw [if_pos]
  · rw [Rat.num_natCast, Int.toNat_natCast,
      optionMapList_parse_lines dim kps descs hdim hbyte,
      Option.map_some']
    rw [List.map_fst_zip kps descs hlen.le,
      List.map_snd_zip kps descs hlen.ge]
  · refine ⟨Rat.den_natCast _, ?_, Rat.den_natCast _, ?_, ?_⟩
    · rw [Rat.num_natCast]
      exact Int.natCast_nonneg _
    · rw [Rat.num_natCast]
      exact Int.natCast_nonneg _
    · rw [Rat.num_natCast, Int.toNat_natCast, List.length_zipWith, hlen,
        Nat.min_self]

/-- Witness for C7: the documented 2-feature/4-dimension example
round-trips. -/
theorem load_write_roundtrip_witness :
    LoadSiftFeaturesFromTextFile (WriteSiftFeaturesToTextFile
        [⟨32 / 100, 12 / 100, 123 / 100, 1⟩,
          ⟨32 / 100, 12 / 100, 123 / 100, 1⟩]
        [[1, 2, 3, 4], [1, 2, 3, 4]] 4) =
      some ([⟨32 / 100, 12 / 100, 123 / 100, 1⟩,
          ⟨32 / 100, 12 / 100, 123 / 100, 1⟩],
        [[1, 2, 3, 4], [1, 2, 3, 4]]) :=
  load_write_roundtrip
    [⟨32 / 100, 12 / 100, 123 / 100, 1⟩, ⟨32 / 100, 12 / 100, 123 / 100, 1⟩]
    [[1, 2, 3, 4], [1, 2, 3, 4]] 4 rfl (by decide) (by decide)

end Colmap
